import Mathlib

/-!
Verification of the silo mcp-server core (apps/mcp-server/src) against its
specification. Each section embeds one Rust module as executable Lean
definitions; theorems at the end of the file settle the spec claims.

Conventions of the embedding:
- machine integers (u64/usize/i64) become Nat/Int; none of the modelled code
  relies on overflow;
- fallible Rust functions returning Result become Except;
- external effects (tokio filesystem calls, the blake3 hash, the globset
  matcher, the lancedb table, the pdftotext subprocess, lossy UTF-8 decoding)
  are modelled as explicit oracle parameters or as finite-map arguments, so
  every definition stays computable and the repository's own logic is
  embedded verbatim.
-/

namespace Silo

/-! ## chunk.rs -/

/-- TextChunk (chunk.rs): ordinal index, joined text, and the half-open token
range of the chunk in the original token sequence. -/
structure TextChunk where
  index : Nat
  text : String
  start_token : Nat
  end_token : Nat
deriving DecidableEq, Repr

/-- Rust `str::split_whitespace`: the maximal nonempty runs of
non-whitespace characters (ASCII whitespace approximation of the Unicode
predicate). Structural recursion over the character list so that it
evaluates inside the kernel. -/
def splitWhitespaceAux : List Char → List Char → List String
  | [], acc => if acc.isEmpty then [] else [String.mk acc.reverse]
  | c :: cs, acc =>
    if c.isWhitespace then
      (if acc.isEmpty then [] else [String.mk acc.reverse]) ++ splitWhitespaceAux cs []
    else
      splitWhitespaceAux cs (c :: acc)

/-- Token list of a text, as used by `chunk_by_whitespace_tokens`
(chunk.rs line 16: `text.split_whitespace().collect()`). -/
def splitWhitespaceTokens (s : String) : List String :=
  splitWhitespaceAux s.data []

/-- The chunk built by one iteration of the `chunk_by_whitespace_tokens`
loop for the window starting at `pos` (chunk.rs lines 27-36): the window end
is `min(pos + chunk_tokens, len)`, the text joins the token slice of the
window with single spaces, and `[start_token, end_token)` records the
window. -/
def emitChunk (tokens : List String) (chunk_tokens idx pos : Nat) : TextChunk :=
  { index := idx
    text := String.intercalate " "
      ((tokens.drop pos).take (min (pos + chunk_tokens) tokens.length - pos))
    start_token := pos
    end_token := min (pos + chunk_tokens) tokens.length }

/-- The `while start < tokens.len()` loop of `chunk_by_whitespace_tokens`
(chunk.rs lines 24-43), with explicit fuel (the loop advances `start` by at
least one token per iteration, so `tokens.length + 1` fuel is enough).
Per iteration: emit the window chunk (see `emitChunk`), stop after emitting
a window whose end is `len`, otherwise continue from `end - overlap`
(`saturating_sub` is Nat subtraction). -/
def chunkLoop (tokens : List String) (chunk_tokens overlap : Nat) :
    Nat → Nat → Nat → List TextChunk
  | 0, _, _ => []
  | fuel + 1, start, idx =>
    if start < tokens.length then
      if min (start + chunk_tokens) tokens.length = tokens.length then
        [emitChunk tokens chunk_tokens idx start]
      else
        emitChunk tokens chunk_tokens idx start ::
          chunkLoop tokens chunk_tokens overlap fuel
            (min (start + chunk_tokens) tokens.length - overlap) (idx + 1)
    else []

/-- Rust `chunk_by_whitespace_tokens` (chunk.rs lines 15-46) on an already
tokenized sequence: empty input or a zero window yields no chunks, otherwise
the overlap is clamped to `min(overlap_tokens, chunk_tokens - 1)` and the
window loop runs from token 0. -/
def chunkTokenList (tokens : List String) (chunk_tokens overlap_tokens : Nat) :
    List TextChunk :=
  if tokens.isEmpty || chunk_tokens = 0 then []
  else
    chunkLoop tokens chunk_tokens (min overlap_tokens (chunk_tokens - 1))
      (tokens.length + 1) 0 0

/-- Rust `chunk_by_whitespace_tokens` (chunk.rs lines 15-46). -/
def chunk_by_whitespace_tokens (text : String) (chunk_tokens overlap_tokens : Nat) :
    List TextChunk :=
  chunkTokenList (splitWhitespaceTokens text) chunk_tokens overlap_tokens

/-! ## Paths and filesystem entries

The scanner works on `std::path::Path` values and `std::fs::Metadata`
obtained from `tokio::fs::symlink_metadata`. A path is modelled by its
string form (used for glob matching, display and storage) together with the
result of `path.extension().and_then(|e| e.to_str())`, which is the only
other projection the code uses; `ext = none` covers both a missing
extension and a non-UTF-8 one. -/

/-- File type as reported by `symlink_metadata` (never follows the link, so
a symlink entry is neither a directory nor a regular file). `other` covers
sockets, fifos and similar. -/
inductive FType where
  | symlink
  | dir
  | regFile
  | other
deriving DecidableEq, Repr

/-- The metadata fields the scanner reads: file type, length in bytes,
modification time (epoch seconds, when available) and the unix inode. -/
structure EntryMeta where
  ftype : FType
  size : Nat
  mtime : Option Int
  inode : Option Nat
deriving DecidableEq, Repr

/-- A filesystem path: its string form plus the result of
`path.extension().and_then(|e| e.to_str())`. -/
structure FsPath where
  raw : String
  ext : Option String
deriving DecidableEq, Repr

/-- A snapshot of the filesystem, as the two traversals observe it:
`meta` models `tokio::fs::symlink_metadata` and `children` models a full
`read_dir` listing; the error strings model the formatted I/O errors. -/
structure FileSystem where
  meta : FsPath → Except String EntryMeta
  children : FsPath → Except String (List FsPath)

/-! ## config.rs -/

/-- Rust `str::to_ascii_lowercase` (also exactly what `Char.toLower` does:
only ASCII A-Z are mapped). -/
def asciiLower (s : String) : String :=
  String.mk (s.data.map Char.toLower)

/-- Rust `s.trim_start_matches('.')`: drop every leading dot. -/
def trimLeadingDots (s : String) : String :=
  String.mk (s.data.dropWhile (fun c => c = '.'))

/-- Rust `default_allow_extensions` (config.rs lines 103-116). -/
def default_allow_extensions : List String :=
  ["txt", "md", "rst",
   "rs", "toml", "json", "yaml", "yml",
   "py", "js", "ts", "tsx", "jsx",
   "java", "kt", "go", "rb", "php",
   "html", "css", "scss",
   "sql",
   "pdf"]

/-- Rust `FileSystemSourceConfig` (config.rs lines 30-56); the roots are handled
separately by the traversals. -/
structure FileSystemSourceConfig where
  exclude_globs : List String
  allow_extensions : List String
  max_file_size_bytes : Nat
  max_text_bytes : Nat
  follow_symlinks : Bool

/-- Rust `CompiledFileSystemPolicy` (config.rs lines 118-125). The compiled
`GlobSet` is external library state; it is modelled as the boolean matcher
it provides (`GlobSet::is_match` on the path string). -/
structure CompiledFileSystemPolicy where
  exclude : String → Bool
  allow_extensions : List String
  max_file_size_bytes : Nat
  max_text_bytes : Nat
  follow_symlinks : Bool

/-- Rust `CompiledFileSystemPolicy::matches_exclude` (config.rs lines 128-130). -/
def CompiledFileSystemPolicy.matches_exclude (pol : CompiledFileSystemPolicy)
    (p : FsPath) : Bool :=
  pol.exclude p.raw

/-- Rust `CompiledFileSystemPolicy::extension_allowed` (config.rs lines 132-138):
no (UTF-8) extension means not allowed; otherwise the extension is ASCII
lowercased and compared for equality against the compiled allowlist. -/
def CompiledFileSystemPolicy.extension_allowed (pol : CompiledFileSystemPolicy)
    (p : FsPath) : Bool :=
  match p.ext with
  | none => false
  | some e => pol.allow_extensions.contains (asciiLower e)

/-- The allowlist normalization inside `compile_filesystem_policy`
(config.rs lines 149-157): an empty configured list means the default list,
otherwise each entry is stripped of leading dots, ASCII lowercased, and
empty results are dropped. -/
def compileAllowExtensions (allow : List String) : List String :=
  if allow.isEmpty then default_allow_extensions
  else (allow.map (fun s => asciiLower (trimLeadingDots s))).filter (fun s => s ≠ "")

/-- Rust `compile_filesystem_policy` (config.rs lines 141-166). Glob compilation
is the external `globset` crate: the compiled matcher is passed in as
`exclude` (an invalid glob pattern is the only failure mode of the Rust
function and happens before any policy is produced). -/
def compile_filesystem_policy (exclude : String → Bool)
    (cfg : FileSystemSourceConfig) : CompiledFileSystemPolicy :=
  { exclude := exclude
    allow_extensions := compileAllowExtensions cfg.allow_extensions
    max_file_size_bytes := cfg.max_file_size_bytes
    max_text_bytes := cfg.max_text_bytes
    follow_symlinks := cfg.follow_symlinks }

/-! ## extract.rs -/

/-- Rust `ExtractKind` (extract.rs lines 4-9). -/
inductive ExtractKind where
  | text
  | pdf
  | unknown
deriving DecidableEq, Repr

/-- Rust `ExtractResult` (extract.rs lines 11-16). -/
structure ExtractResultM where
  kind : ExtractKind
  text : String
  truncated : Bool
deriving DecidableEq, Repr

/-- Rust `detect_kind` (extract.rs lines 30-38). -/
def detect_kind (p : FsPath) : ExtractKind :=
  match p.ext with
  | none => .unknown
  | some e => if asciiLower e = "pdf" then .pdf else .text

/-- Rust `truncate_bytes` (extract.rs lines 92-99): keep the raw bytes when they
fit under the cap, otherwise truncate to exactly `max_bytes` bytes and
report it. -/
def truncate_bytes (bytes : List UInt8) (max_bytes : Nat) : List UInt8 × Bool :=
  if bytes.length ≤ max_bytes then (bytes, false)
  else (bytes.take max_bytes, true)

/-- Rust `extract_plain_text` (extract.rs lines 40-54) after a successful
`tokio::fs::read` (a read failure is returned as Err upstream and never
reaches the truncation). `String::from_utf8_lossy` is the std lossy decoder:
an arbitrary total function `lossyDecode` from bytes to text. -/
def extract_plain_text (lossyDecode : List UInt8 → String)
    (bytes : List UInt8) (max_text_bytes : Nat) : ExtractResultM :=
  let bt := truncate_bytes bytes max_text_bytes
  { kind := .text, text := lossyDecode bt.1, truncated := bt.2 }

/-! ## embed.rs -/

/-- Rust `EMBEDDING_DIM` (embed.rs line 3). -/
def EMBEDDING_DIM : Nat := 384

/-- Rust `NoopEmbedder::embed_texts` (embed.rs lines 37-39): always succeeds with
one zero vector of the fixed dimension per input text. -/
def noopEmbedTexts (texts : List String) : Except String (List (List Float)) :=
  .ok (texts.map (fun _ => List.replicate EMBEDDING_DIM (0.0 : Float)))

/-! ## database.rs

The lancedb table is modelled as the list of its rows; the `Database` enum
keeps the Enabled/Disabled split. `blake3::hash(..).to_hex()` is an external
pure function modelled as an oracle `hash : String → String` (both the inner
content hash and the outer id hash go through the same oracle). -/

/-- Rust `Row` (database.rs lines 284-296): one persisted chunk row. -/
structure StoredRow where
  id : String
  path : String
  chunk_index : Nat
  start_token : Nat
  end_token : Nat
  file_mtime_epoch_secs : Option Int
  file_size_bytes : Option Int
  file_hash : Option String
  content : String
  embedding : List Float

/-- Rust `SearchHit` (database.rs lines 42-49). -/
structure SearchHit where
  path : String
  score : Option Float
  content_preview : Option String

/-- Rust `Database` (database.rs lines 14-19): Enabled holds the table state,
Disabled a human-readable reason. -/
inductive Database where
  | enabled (rows : List StoredRow)
  | disabled (reason : String)

/-- Rust `Database::is_enabled` (database.rs lines 87-96). -/
def Database.is_enabled : Database → Bool
  | .enabled _ => true
  | .disabled _ => false

/-- Rust `Database::disabled_reason` (database.rs lines 98-104). -/
def Database.disabled_reason : Database → Option String
  | .enabled _ => none
  | .disabled reason => some reason

/-- The fixed reason of the feature-gated disabled constructor
(`Database::new` without the lancedb feature, database.rs lines 73-79). -/
def database_new_disabled_reason : String :=
  "LanceDB is not enabled. Rebuild with `--features lancedb`."

/-- Rust `DbError` (database.rs lines 30-40) with its thiserror display strings. -/
inductive DbErrorM where
  | ioErr (msg : String)
  | lanceDbErr (msg : String)
  | arrowErr (msg : String)
deriving DecidableEq, Repr

/-- The `Display` rendering of `DbError`, as produced by `e.to_string()`
in main.rs line 15. -/
def DbErrorM.message : DbErrorM → String
  | .ioErr m => "I/O error: " ++ m
  | .lanceDbErr m => "lancedb error: " ++ m
  | .arrowErr m => "arrow error: " ++ m

/-- Rust `zero_embedding` (database.rs lines 269-271). -/
def zero_embedding : List Float :=
  List.replicate EMBEDDING_DIM (0.0 : Float)

/-- The chunk-row id computed inside `replace_file_chunks` (database.rs
lines 210-215): `blake3::hash(format!("{path}\n{chunk_index}\n{inner}"))`
in hex, where `inner` is the hex blake3 hash of the chunk content. -/
def replaceChunkId (hash : String → String) (path : String) (chunk_index : Nat)
    (content : String) : String :=
  hash (path ++ "\n" ++ toString chunk_index ++ "\n" ++ hash content)

/-- The row set built by `replace_file_chunks` from its `rows` argument
(database.rs lines 208-229); independent of the prior table state. -/
def mkReplaceRows (hash : String → String) (path : String)
    (file_mtime_epoch_secs file_size_bytes : Option Int) (file_hash : Option String)
    (rows : List (Nat × Nat × Nat × String × List Float)) : List StoredRow :=
  rows.map (fun r =>
    match r with
    | (chunk_index, start_token, end_token, content, embedding) =>
      { id := replaceChunkId hash path chunk_index content
        path := path
        chunk_index := chunk_index
        start_token := start_token
        end_token := end_token
        file_mtime_epoch_secs := file_mtime_epoch_secs
        file_size_bytes := file_size_bytes
        file_hash := file_hash
        content := content
        embedding := embedding })

/-- Rust `delete_by_path` (database.rs lines 443-450): the SQL predicate
`path = '<escaped>'` deletes exactly the rows whose path equals the given
path. -/
def delete_by_path (rows : List StoredRow) (path : String) : List StoredRow :=
  rows.filter (fun r => !(r.path == path))

/-- Rust `Database::add_document` (database.rs lines 107-134): on a Disabled
store a successful no-op, else a single-row insert with a zero embedding. -/
def Database.add_document (hash : String → String) (db : Database)
    (path content : String) : Database × Except String Unit :=
  match db with
  | .disabled reason => (.disabled reason, .ok ())
  | .enabled rows =>
    (.enabled (rows ++
      [{ id := hash (path ++ "\n0")
         path := path
         chunk_index := 0
         start_token := 0
         end_token := 0
         file_mtime_epoch_secs := none
         file_size_bytes := none
         file_hash := none
         content := content
         embedding := zero_embedding }]), .ok ())

/-- Rust `Database::add_chunk` (database.rs lines 139-175): on a Disabled store a
successful no-op, else a single-row insert of the given row. -/
def Database.add_chunk (db : Database) (id path : String)
    (chunk_index start_token end_token : Nat) (content : String)
    (embedding : List Float) : Database × Except String Unit :=
  match db with
  | .disabled reason => (.disabled reason, .ok ())
  | .enabled rows =>
    (.enabled (rows ++
      [{ id := id
         path := path
         chunk_index := chunk_index
         start_token := start_token
         end_token := end_token
         file_mtime_epoch_secs := none
         file_size_bytes := none
         file_hash := none
         content := content
         embedding := embedding }]), .ok ())

/-- Rust `Database::replace_file_chunks` (database.rs lines 180-234): on a
Disabled store a successful no-op; on an Enabled store delete every row
whose path matches exactly, then bulk-insert the freshly built row set. -/
def Database.replace_file_chunks (hash : String → String) (db : Database)
    (path : String) (file_mtime_epoch_secs file_size_bytes : Option Int)
    (file_hash : Option String)
    (rows : List (Nat × Nat × Nat × String × List Float)) :
    Database × Except String Unit :=
  match db with
  | .disabled reason => (.disabled reason, .ok ())
  | .enabled st =>
    (.enabled (delete_by_path st path ++
      mkReplaceRows hash path file_mtime_epoch_secs file_size_bytes file_hash rows),
     .ok ())

/-- Rust `Database::search_documents` (database.rs lines 237-266): empty result
on a Disabled store; on an Enabled store the lancedb nearest-neighbor query
is external and modelled by the `vsearch` oracle. -/
def Database.search_documents (vsearch : List StoredRow → List SearchHit)
    (db : Database) (query : String) : Except String (List SearchHit) :=
  match db with
  | .disabled _ => .ok []
  | .enabled rows =>
    let _ := query
    .ok (vsearch rows)

/-! ## ingest.rs -/

/-- Rust `IngestStats` (ingest.rs lines 9-18). -/
structure IngestStatsM where
  path : String
  extracted_kind : String
  extracted_chars : Nat
  chunk_tokens : Nat
  chunk_overlap_tokens : Nat
  chunks : Nat
  stored : Bool

/-- Rust `expand_tilde` (state.rs lines 143-154); `home` models the HOME
environment variable and `PathBuf::join` the path concatenation. -/
def expand_tilde (home : Option String) (path : String) : String :=
  if path = "~" then home.getD "."
  else
    match path.data with
    | '~' :: '/' :: rest => (home.getD ".") ++ "/" ++ String.mk rest
    | _ => path

/-- The format rendering of `format!("{:?}", kind).to_lowercase()`
(ingest.rs line 87). -/
def extractKindString : ExtractKind → String
  | .text => "text"
  | .pdf => "pdf"
  | .unknown => "unknown"

/-- The fields of `tokio::fs::metadata(..).ok()` read by `process_file`
(ingest.rs lines 36-44). -/
structure FileMetaM where
  size : Int
  mtime : Option Int
deriving DecidableEq, Repr

/-- Rust `chunk_id` (ingest.rs lines 96-105). This helper is never called
anywhere in the source tree; the id actually stored is computed inside
`replace_file_chunks` (see `replaceChunkId`) and differs by hashing the
content first. -/
def chunk_id (hash : String → String) (path : String) (chunk_index : Nat)
    (text : String) : String :=
  hash (path ++ "\n" ++ toString chunk_index ++ "\n" ++ text)

/-- Rust `process_file` (ingest.rs lines 25-94). The filesystem reads are
oracles: `fileMeta` models `tokio::fs::metadata(&path).ok()` and
`extracted` the result of `extract_text` (whose cap argument is
`max_text_bytes`). The per-file pipeline — chunking, embedding, the
cardinality check, and the per-file replace write — is embedded verbatim.
Returns the per-file result together with the database state afterwards. -/
def process_file (hash : String → String)
    (embed_texts : List String → Except String (List (List Float)))
    (home : Option String) (fileMeta : Option FileMetaM)
    (extracted : Except String ExtractResultM) (db : Database) (path : String)
    (max_text_bytes chunk_tokens chunk_overlap_tokens : Nat) :
    Except String IngestStatsM × Database :=
  let _ := max_text_bytes
  let path2 := expand_tilde home path
  let file_size_bytes := fileMeta.map (fun m => m.size)
  let file_mtime_epoch_secs := fileMeta.bind (fun m => m.mtime)
  match extracted with
  | .error e => (.error e, db)
  | .ok ex =>
    let extracted_chars := ex.text.length
    let file_hash := some (hash ex.text)
    let chunks := chunk_by_whitespace_tokens ex.text chunk_tokens chunk_overlap_tokens
    match embed_texts (chunks.map (fun c => c.text)) with
    | .error e => (.error e, db)
    | .ok embeddings =>
      if embeddings.length ≠ chunks.length then
        (.error ("embedder returned " ++ toString embeddings.length ++
          " vectors for " ++ toString chunks.length ++ " chunks"), db)
      else if db.is_enabled then
        let rows := (chunks.zip embeddings).map
          (fun ce => (ce.1.index, ce.1.start_token, ce.1.end_token, ce.1.text, ce.2))
        let wr := db.replace_file_chunks hash path2 file_mtime_epoch_secs
          file_size_bytes file_hash rows
        match wr.2 with
        | .error e => (.error ("DB write failed: " ++ e), wr.1)
        | .ok _ =>
          (.ok { path := path2
                 extracted_kind := extractKindString ex.kind
                 extracted_chars := extracted_chars
                 chunk_tokens := chunk_tokens
                 chunk_overlap_tokens := chunk_overlap_tokens
                 chunks := chunks.length
                 stored := true }, wr.1)
      else
        (.ok { path := path2
               extracted_kind := extractKindString ex.kind
               extracted_chars := extracted_chars
               chunk_tokens := chunk_tokens
               chunk_overlap_tokens := chunk_overlap_tokens
               chunks := chunks.length
               stored := false }, db)

/-! ## filesystem.rs (preview scan)

Both traversals pop entries off an explicit stack. Each popped entry runs
through the same chain of checks; the chain is captured by a decision value
(one constructor per branch of the Rust `while` body), and the loop applies
the branch's effect on the counters and samples. A ghost `trace` field
records every processed entry together with the branch taken — it changes
no behaviour and exists only to state per-entry theorems. -/

/-- The branch taken for one popped entry. The order of checks in the
source: exclusion glob, `symlink_metadata` failure, symlink without
follow_symlinks, directory (with `read_dir` success or failure), not a
regular file, extension not allowlisted, size over cap, accepted. `accept`
carries the entry metadata (used to build the candidate record). -/
inductive ScanDecision where
  | excluded
  | metaError (e : String)
  | symlinkSkip
  | descendOk (children : List FsPath)
  | descendErr (e : String)
  | notRegular
  | extNotAllowed
  | tooLarge (size : Nat)
  | accept (m : EntryMeta)
deriving DecidableEq, Repr

/-- The per-entry decision chain of `preview_index` (filesystem.rs lines
70-177), transliterated branch by branch. -/
def previewDecide (pol : CompiledFileSystemPolicy) (fs : FileSystem)
    (p : FsPath) : ScanDecision :=
  if pol.matches_exclude p then .excluded
  else
    match fs.meta p with
    | .error e => .metaError e
    | .ok m =>
      if m.ftype == .symlink && !pol.follow_symlinks then .symlinkSkip
      else if m.ftype == .dir then
        match fs.children p with
        | .ok cs => .descendOk cs
        | .error e => .descendErr e
      else if !(m.ftype == .regFile) then .notRegular
      else if !(pol.extension_allowed p) then .extNotAllowed
      else if m.size > pol.max_file_size_bytes then .tooLarge m.size
      else .accept m

/-- The per-entry decision chain of `index_roots` (indexer.rs lines 71-123),
transliterated branch by branch from the indexer's own loop body. -/
def indexDecide (pol : CompiledFileSystemPolicy) (fs : FileSystem)
    (p : FsPath) : ScanDecision :=
  if pol.matches_exclude p then .excluded
  else
    match fs.meta p with
    | .error e => .metaError e
    | .ok m =>
      if m.ftype == .symlink && !pol.follow_symlinks then .symlinkSkip
      else if m.ftype == .dir then
        match fs.children p with
        | .ok cs => .descendOk cs
        | .error e => .descendErr e
      else if !(m.ftype == .regFile) then .notRegular
      else if !(pol.extension_allowed p) then .extNotAllowed
      else if m.size > pol.max_file_size_bytes then .tooLarge m.size
      else .accept m

/-- Rust `FileCandidate` (filesystem.rs lines 5-13). -/
structure FileCandidateM where
  path : String
  size_bytes : Nat
  modified_epoch_secs : Option Int
  inode : Option Nat
deriving DecidableEq, Repr

/-- Rust `SkippedEntry` (filesystem.rs lines 15-19). -/
structure SkippedEntryM where
  path : String
  reason : String
deriving DecidableEq, Repr

/-- Rust `ScanOptions` (filesystem.rs lines 32-36). -/
structure ScanOptions where
  max_sample_candidates : Nat
  max_sample_skipped : Nat
deriving DecidableEq, Repr

/-- Rust `push_skipped` (filesystem.rs lines 195-208): append unless the sample
cap is reached. -/
def push_skipped (out : List SkippedEntryM) (max : Nat) (path reason : String) :
    List SkippedEntryM :=
  if out.length ≥ max then out else out ++ [{ path := path, reason := reason }]

/-- Rust `push_candidate` (filesystem.rs lines 210-220). -/
def push_candidate (out : List FileCandidateM) (max : Nat) (p : FsPath)
    (m : EntryMeta) : List FileCandidateM :=
  if out.length ≥ max then out
  else out ++ [{ path := p.raw, size_bytes := m.size,
                 modified_epoch_secs := m.mtime, inode := m.inode }]

/-- The mutable state of the `preview_index` loop, plus the ghost trace. -/
structure PreviewState where
  files_seen : Nat
  dirs_seen : Nat
  candidates : Nat
  skipped : Nat
  sample_candidates : List FileCandidateM
  sample_skipped : List SkippedEntryM
  trace : List (FsPath × ScanDecision)
deriving DecidableEq, Repr

/-- Effect of one branch of the `preview_index` loop body on the state;
returns the children to push (non-empty only for a readable directory). -/
def previewStep (opts : ScanOptions) (p : FsPath) (d : ScanDecision)
    (st : PreviewState) : List FsPath × PreviewState :=
  match d with
  | .excluded =>
    ([], { st with skipped := st.skipped + 1
                   sample_skipped := push_skipped st.sample_skipped
                     opts.max_sample_skipped p.raw "excluded by glob"
                   trace := st.trace ++ [(p, d)] })
  | .metaError e =>
    ([], { st with skipped := st.skipped + 1
                   sample_skipped := push_skipped st.sample_skipped
                     opts.max_sample_skipped p.raw ("metadata error: " ++ e)
                   trace := st.trace ++ [(p, d)] })
  | .symlinkSkip =>
    ([], { st with skipped := st.skipped + 1
                   sample_skipped := push_skipped st.sample_skipped
                     opts.max_sample_skipped p.raw "symlink (skipped)"
                   trace := st.trace ++ [(p, d)] })
  | .descendOk cs =>
    (cs, { st with dirs_seen := st.dirs_seen + 1
                   trace := st.trace ++ [(p, d)] })
  | .descendErr e =>
    ([], { st with dirs_seen := st.dirs_seen + 1
                   skipped := st.skipped + 1
                   sample_skipped := push_skipped st.sample_skipped
                     opts.max_sample_skipped p.raw ("read_dir error: " ++ e)
                   trace := st.trace ++ [(p, d)] })
  | .notRegular =>
    ([], { st with skipped := st.skipped + 1
                   sample_skipped := push_skipped st.sample_skipped
                     opts.max_sample_skipped p.raw "not a regular file"
                   trace := st.trace ++ [(p, d)] })
  | .extNotAllowed =>
    ([], { st with files_seen := st.files_seen + 1
                   skipped := st.skipped + 1
                   sample_skipped := push_skipped st.sample_skipped
                     opts.max_sample_skipped p.raw "extension not allowlisted"
                   trace := st.trace ++ [(p, d)] })
  | .tooLarge size =>
    ([], { st with files_seen := st.files_seen + 1
                   skipped := st.skipped + 1
                   sample_skipped := push_skipped st.sample_skipped
                     opts.max_sample_skipped p.raw
                     ("file too large: " ++ toString size ++ " bytes")
                   trace := st.trace ++ [(p, d)] })
  | .accept m =>
    ([], { st with files_seen := st.files_seen + 1
                   candidates := st.candidates + 1
                   sample_candidates := push_candidate st.sample_candidates
                     opts.max_sample_candidates p m
                   trace := st.trace ++ [(p, d)] })

/-- The `while let Some(current) = stack.pop()` loop of `preview_index`,
with explicit fuel (the Rust traversal similarly terminates only on a
finite filesystem). Children are pushed onto the stack before continuing. -/
def previewLoop (pol : CompiledFileSystemPolicy) (fs : FileSystem)
    (opts : ScanOptions) : Nat → List FsPath → PreviewState → PreviewState
  | 0, _, st => st
  | _ + 1, [], st => st
  | fuel + 1, p :: stack, st =>
    let d := previewDecide pol fs p
    let step := previewStep opts p d st
    previewLoop pol fs opts fuel (step.1 ++ stack) step.2

/-- Insertion sort by a string key; models the final
`sort_by(|a, b| a.path.cmp(&b.path))` of the sample lists. -/
def insertByKey (key : α → String) (x : α) : List α → List α
  | [] => [x]
  | y :: ys => if key x ≤ key y then x :: y :: ys else y :: insertByKey key x ys

/-- Sort a list by a string key (the deterministic sample order). -/
def sortByKey (key : α → String) : List α → List α
  | [] => []
  | x :: xs => insertByKey key x (sortByKey key xs)

/-- Rust `ScanSummary` (filesystem.rs lines 21-30), plus the ghost trace. -/
structure ScanSummaryM where
  roots : List String
  files_seen : Nat
  dirs_seen : Nat
  candidates : Nat
  skipped : Nat
  sample_candidates : List FileCandidateM
  sample_skipped : List SkippedEntryM
  trace : List (FsPath × ScanDecision)
deriving DecidableEq, Repr

/-- Rust `preview_index` (filesystem.rs lines 52-193): run the stack traversal
seeded with the roots, then sort both sample lists by path. -/
def preview_index (pol : CompiledFileSystemPolicy) (fs : FileSystem)
    (opts : ScanOptions) (fuel : Nat) (roots : List FsPath) : ScanSummaryM :=
  let st := previewLoop pol fs opts fuel roots
    { files_seen := 0, dirs_seen := 0, candidates := 0, skipped := 0,
      sample_candidates := [], sample_skipped := [], trace := [] }
  { roots := roots.map (fun p => p.raw)
    files_seen := st.files_seen
    dirs_seen := st.dirs_seen
    candidates := st.candidates
    skipped := st.skipped
    sample_candidates := sortByKey (fun c => c.path) st.sample_candidates
    sample_skipped := sortByKey (fun s => s.path) st.sample_skipped
    trace := st.trace }

/-! ## indexer.rs

The per-file tasks run concurrently in the source; their outcomes do not
depend on each other (each owns its file), so the run is modelled with a
deterministic schedule: the JoinSet is a FIFO queue of already-determined
outcomes, `runFile` being the oracle for one file's `process_file` result
(`Ok` carries `IngestStats.stored`). Ghost fields: `spawnLog` records each
spawned path with the value of the `ingested` counter at spawn time, and
`trace` records the decision for every classified entry. -/

/-- Rust `IndexOptions` (indexer.rs lines 22-27). -/
structure IndexOptions where
  max_files : Option Nat
  concurrency : Nat
  max_sample_errors : Nat
deriving DecidableEq, Repr

/-- The mutable state of the `index_roots` loop, plus ghost fields. -/
structure IndexState where
  scanned_files : Nat
  scanned_dirs : Nat
  ingested : Nat
  skipped : Nat
  errors : Nat
  stored : Nat
  sample_errors : List String
  tasks : List (String × Except String Bool)
  spawnLog : List (String × Nat)
  trace : List (FsPath × ScanDecision)

/-- Rust `push_err` (indexer.rs lines 203-207). -/
def push_err (out : List String) (max : Nat) (msg : String) : List String :=
  if out.length < max then out ++ [msg] else out

/-- Handling of one joined task (indexer.rs lines 149-164 and 173-188): a
successful ingest bumps `ingested` (and `stored` when the stats say so), a
failed one bumps `errors` and records a sample message. -/
def joinOne (opts : IndexOptions) (st : IndexState) : IndexState :=
  match st.tasks with
  | [] => st
  | (path, res) :: rest =>
    match res with
    | .ok storedFlag =>
      { st with tasks := rest
                ingested := st.ingested + 1
                stored := if storedFlag then st.stored + 1 else st.stored }
    | .error e =>
      { st with tasks := rest
                errors := st.errors + 1
                sample_errors := push_err st.sample_errors opts.max_sample_errors
                  ("ingest " ++ path ++ ": " ++ e) }

/-- The opportunistic drain loop (indexer.rs lines 146-168): join completed
tasks while at least `2 * concurrency` are outstanding (an empty JoinSet
returns None and breaks). Fuel is the queue length at entry. -/
def drainLoop (opts : IndexOptions) : Nat → IndexState → IndexState
  | 0, st => st
  | fuel + 1, st =>
    if st.tasks.length ≥ opts.concurrency * 2 && !st.tasks.isEmpty then
      drainLoop opts fuel (joinOne opts st)
    else st

/-- Effect of one branch of the `index_roots` loop body on the state
(indexer.rs lines 71-144); returns the children to push. The `accept`
branch spawns the per-file task (semaphore permits bound only timing, not
outcomes, in this schedule model). -/
def indexStep (opts : IndexOptions) (runFile : String → Except String Bool)
    (p : FsPath) (d : ScanDecision) (st : IndexState) : List FsPath × IndexState :=
  match d with
  | .excluded =>
    ([], { st with skipped := st.skipped + 1, trace := st.trace ++ [(p, d)] })
  | .metaError e =>
    ([], { st with skipped := st.skipped + 1
                   sample_errors := push_err st.sample_errors
                     opts.max_sample_errors ("metadata " ++ p.raw ++ ": " ++ e)
                   trace := st.trace ++ [(p, d)] })
  | .symlinkSkip =>
    ([], { st with skipped := st.skipped + 1, trace := st.trace ++ [(p, d)] })
  | .descendOk cs =>
    (cs, { st with scanned_dirs := st.scanned_dirs + 1
                   trace := st.trace ++ [(p, d)] })
  | .descendErr e =>
    ([], { st with scanned_dirs := st.scanned_dirs + 1
                   skipped := st.skipped + 1
                   sample_errors := push_err st.sample_errors
                     opts.max_sample_errors ("read_dir " ++ p.raw ++ ": " ++ e)
                   trace := st.trace ++ [(p, d)] })
  | .notRegular =>
    ([], { st with skipped := st.skipped + 1, trace := st.trace ++ [(p, d)] })
  | .extNotAllowed =>
    ([], { st with scanned_files := st.scanned_files + 1
                   skipped := st.skipped + 1
                   trace := st.trace ++ [(p, d)] })
  | .tooLarge _ =>
    ([], { st with scanned_files := st.scanned_files + 1
                   skipped := st.skipped + 1
                   trace := st.trace ++ [(p, d)] })
  | .accept _ =>
    ([], { st with scanned_files := st.scanned_files + 1
                   tasks := st.tasks ++ [(p.raw, runFile p.raw)]
                   spawnLog := st.spawnLog ++ [(p.raw, st.ingested)]
                   trace := st.trace ++ [(p, d)] })

/-- The `while let Some(current) = stack.pop()` loop of `index_roots`
(indexer.rs lines 66-169): break once `ingested` reaches the target
(`max_files`, defaulting to no limit), classify the entry, apply the
branch, and after a spawn drain opportunistically. -/
def indexLoop (pol : CompiledFileSystemPolicy) (fs : FileSystem)
    (opts : IndexOptions) (runFile : String → Except String Bool) :
    Nat → List FsPath → IndexState → IndexState
  | 0, _, st => st
  | _ + 1, [], st => st
  | fuel + 1, p :: stack, st =>
    if (match opts.max_files with
        | some m => decide (st.ingested ≥ m)
        | none => false) then st
    else
      let d := indexDecide pol fs p
      let step := indexStep opts runFile p d st
      let st3 := match d with
        | .accept _ => drainLoop opts step.2.tasks.length step.2
        | _ => step.2
      indexLoop pol fs opts runFile fuel (step.1 ++ stack) st3

/-- The final drain (indexer.rs lines 171-189): join every remaining task.
Fuel is the queue length at entry. -/
def joinRemaining (opts : IndexOptions) : Nat → IndexState → IndexState
  | 0, st => st
  | fuel + 1, st =>
    if st.tasks.isEmpty then st else joinRemaining opts fuel (joinOne opts st)

/-- The initial `index_roots` counters. -/
def initIndexState : IndexState :=
  { scanned_files := 0, scanned_dirs := 0, ingested := 0, skipped := 0,
    errors := 0, stored := 0, sample_errors := [], tasks := [],
    spawnLog := [], trace := [] }

/-- Rust `index_roots` (indexer.rs lines 44-201): run the traversal loop, then
join all remaining tasks. The returned state carries every `IndexSummary`
field. -/
def index_roots (pol : CompiledFileSystemPolicy) (fs : FileSystem)
    (opts : IndexOptions) (runFile : String → Except String Bool)
    (fuel : Nat) (roots : List FsPath) : IndexState :=
  let st := indexLoop pol fs opts runFile fuel roots initIndexState
  joinRemaining opts st.tasks.length st

/-- Rust `IndexSummary` (indexer.rs lines 10-20). -/
structure IndexSummaryM where
  roots : List String
  scanned_files : Nat
  scanned_dirs : Nat
  ingested : Nat
  skipped : Nat
  errors : Nat
  stored : Nat
  sample_errors : List String

/-- The summary built at indexer.rs lines 191-200. -/
def index_roots_summary (pol : CompiledFileSystemPolicy) (fs : FileSystem)
    (opts : IndexOptions) (runFile : String → Except String Bool)
    (fuel : Nat) (roots : List FsPath) : IndexSummaryM :=
  let st := index_roots pol fs opts runFile fuel roots
  { roots := roots.map (fun p => p.raw)
    scanned_files := st.scanned_files
    scanned_dirs := st.scanned_dirs
    ingested := st.ingested
    skipped := st.skipped
    errors := st.errors
    stored := st.stored
    sample_errors := st.sample_errors }

/-- The acceptance predicate of the specification: a scanned entry is
accepted iff it is a regular file, not excluded, its extension is
allowlisted, its size is at most the cap, and it is not a symlink or
symlinks are followed (file type and size as reported by
`symlink_metadata`). -/
def acceptSpec (pol : CompiledFileSystemPolicy) (fs : FileSystem)
    (p : FsPath) : Bool :=
  match fs.meta p with
  | .error _ => false
  | .ok m =>
    (m.ftype == .regFile) && !(pol.matches_exclude p) &&
      pol.extension_allowed p && (m.size ≤ pol.max_file_size_bytes) &&
      (!(m.ftype == .symlink) || pol.follow_symlinks)

/-- Whether a decision is the accepting branch (the one that produces a
candidate in the preview and spawns the ingestion task in the indexer). -/
def ScanDecision.isAccept : ScanDecision → Bool
  | .accept _ => true
  | _ => false

/-- The ids currently stored for a path (the id column of the rows whose
path matches exactly). -/
def storedIdsFor (path : String) : Database → List String
  | .enabled rows => (rows.filter (fun r => r.path == path)).map (fun r => r.id)
  | .disabled _ => []

/-! ## Concrete inputs used by witnesses and counterexamples -/

/-- A compiled policy allowing only `txt` files up to 100 bytes, with no
exclusions and symlinks not followed. -/
def witPolicy : CompiledFileSystemPolicy :=
  { exclude := fun _ => false
    allow_extensions := ["txt"]
    max_file_size_bytes := 100
    max_text_bytes := 1000
    follow_symlinks := false }

/-- Three regular one-byte `txt` files and nothing else. -/
def witFs : FileSystem :=
  { meta := fun p =>
      if p.raw = "/a.txt" || p.raw = "/b.txt" || p.raw = "/c.txt" then
        .ok { ftype := .regFile, size := 1, mtime := none, inode := none }
      else .error "No such file or directory"
    children := fun _ => .error "Not a directory" }

/-- The three files of `witFs`, used as scan roots. -/
def witRoots : List FsPath :=
  [{ raw := "/a.txt", ext := some "txt" },
   { raw := "/b.txt", ext := some "txt" },
   { raw := "/c.txt", ext := some "txt" }]

/-- Indexing options with `max_files = 1` and concurrency 2. -/
def witIndexOpts : IndexOptions :=
  { max_files := some 1, concurrency := 2, max_sample_errors := 20 }

/-- A per-file outcome oracle where every ingestion succeeds and stores. -/
def witRunFile : String → Except String Bool := fun _ => .ok true

/-- Default preview sample caps (filesystem.rs lines 38-45). -/
def witScanOpts : ScanOptions :=
  { max_sample_candidates := 200, max_sample_skipped := 200 }

/-- The first file of `witRoots`. -/
def witEntryA : FsPath := { raw := "/a.txt", ext := some "txt" }

/-- The metadata `witFs` reports for its files. -/
def witMetaFile : EntryMeta :=
  { ftype := FType.regFile, size := 1, mtime := none, inode := none }

/-! ## Helper lemmas about the store -/

theorem mkReplaceRows_path_eq (hash : String → String) (path : String)
    (mt sz : Option Int) (fh : Option String)
    (rows : List (Nat × Nat × Nat × String × List Float)) :
    ∀ r ∈ mkReplaceRows hash path mt sz fh rows, r.path = path := by
  intro r hr
  simp only [mkReplaceRows, List.mem_map] at hr
  obtain ⟨a, _, rfl⟩ := hr
  obtain ⟨ci, s, e, c, emb⟩ := a
  rfl

theorem filter_delete_by_path (st : List StoredRow) (path : String) :
    (delete_by_path st path).filter (fun r => r.path == path) = [] := by
  rw [List.filter_eq_nil_iff]
  intro r hr
  simp only [delete_by_path, List.mem_filter, Bool.not_eq_true'] at hr
  simp [hr.2]

theorem filter_not_delete_by_path (st : List StoredRow) (path : String) :
    (delete_by_path st path).filter (fun r => !(r.path == path)) =
      st.filter (fun r => !(r.path == path)) := by
  simp [delete_by_path, List.filter_filter]

theorem filter_mkReplaceRows_self (hash : String → String) (path : String)
    (mt sz : Option Int) (fh : Option String)
    (rows : List (Nat × Nat × Nat × String × List Float)) :
    (mkReplaceRows hash path mt sz fh rows).filter (fun r => r.path == path) =
      mkReplaceRows hash path mt sz fh rows := by
  rw [List.filter_eq_self]
  intro r hr
  simp [mkReplaceRows_path_eq hash path mt sz fh rows r hr]

theorem filter_not_mkReplaceRows (hash : String → String) (path : String)
    (mt sz : Option Int) (fh : Option String)
    (rows : List (Nat × Nat × Nat × String × List Float)) :
    (mkReplaceRows hash path mt sz fh rows).filter (fun r => !(r.path == path)) = [] := by
  rw [List.filter_eq_nil_iff]
  intro r hr
  simp [mkReplaceRows_path_eq hash path mt sz fh rows r hr]

theorem replace_state_eq (hash : String → String) (st : List StoredRow)
    (path : String) (mt sz : Option Int) (fh : Option String)
    (rows : List (Nat × Nat × Nat × String × List Float)) :
    (Database.replace_file_chunks hash (.enabled st) path mt sz fh rows).1 =
      .enabled (delete_by_path st path ++ mkReplaceRows hash path mt sz fh rows) := rfl

theorem storedIdsFor_replace (hash : String → String) (st : List StoredRow)
    (path : String) (mt sz : Option Int) (fh : Option String)
    (rows : List (Nat × Nat × Nat × String × List Float)) :
    storedIdsFor path (Database.replace_file_chunks hash (.enabled st) path mt sz fh rows).1 =
      (mkReplaceRows hash path mt sz fh rows).map (fun r => r.id) := by
  simp [storedIdsFor, Database.replace_file_chunks, List.filter_append,
    filter_delete_by_path, filter_mkReplaceRows_self]

/-! ## Claim theorems (storage) -/

/-- C5: after a successful `replace_file_chunks(path, metadata, rows)` on an
enabled store the rows stored for `path` are exactly the row set built from
the `rows` argument, independent of the prior state, and all other paths'
rows are untouched; the operation is delete-then-bulk-insert as one unit and
reports success. -/
theorem C5_replace_set_invariant (hash : String → String) (st : List StoredRow)
    (path : String) (mt sz : Option Int) (fh : Option String)
    (rows : List (Nat × Nat × Nat × String × List Float)) :
    (Database.replace_file_chunks hash (.enabled st) path mt sz fh rows).2 = .ok ()
    ∧ (Database.replace_file_chunks hash (.enabled st) path mt sz fh rows).1 =
        .enabled (delete_by_path st path ++ mkReplaceRows hash path mt sz fh rows)
    ∧ ∃ st2,
        (Database.replace_file_chunks hash (.enabled st) path mt sz fh rows).1 = .enabled st2
        ∧ st2.filter (fun r => r.path == path) = mkReplaceRows hash path mt sz fh rows
        ∧ st2.filter (fun r => !(r.path == path)) = st.filter (fun r => !(r.path == path)) := by
  refine ⟨rfl, rfl, _, rfl, ?_, ?_⟩
  · simp [List.filter_append, filter_delete_by_path, filter_mkReplaceRows_self]
  · simp [List.filter_append, filter_not_delete_by_path, filter_not_mkReplaceRows]

/-- C4: every id stored by `replace_file_chunks` is the deterministic
function `hash(path \n chunk_index \n hash(chunk_text))` of the path, index
and content hash (see `replaceChunkId`), hence replacing twice with the same
path and rows stores the identical id set both times. -/
theorem C4_chunk_id_deterministic (hash : String → String) (st : List StoredRow)
    (path : String) (mt sz : Option Int) (fh : Option String)
    (rows : List (Nat × Nat × Nat × String × List Float)) :
    (mkReplaceRows hash path mt sz fh rows).map (fun r => r.id) =
      rows.map (fun r => replaceChunkId hash path r.1 r.2.2.2.1)
    ∧ storedIdsFor path (Database.replace_file_chunks hash (.enabled st) path mt sz fh rows).1 =
        storedIdsFor path (Database.replace_file_chunks hash
          (Database.replace_file_chunks hash (.enabled st) path mt sz fh rows).1
          path mt sz fh rows).1 := by
  constructor
  · simp only [mkReplaceRows, List.map_map]
    apply List.map_congr_left
    intro a _
    obtain ⟨ci, s, e, c, emb⟩ := a
    rfl
  · rw [replace_state_eq hash st path mt sz fh rows, storedIdsFor_replace]
    simp [storedIdsFor, Database.replace_file_chunks, List.filter_append,
      filter_delete_by_path, filter_mkReplaceRows_self]

/-- C6: on a Disabled database every mutating operation (`add_document`,
`add_chunk`, `replace_file_chunks`) reports success and leaves the state
unchanged, `search_documents` returns the empty list, and the disabled
reason is queryable via `disabled_reason`; the reasons the program
constructs (the feature-gated constructor string and a rendered `DbError`)
are never empty. -/
theorem C6_disabled_store_noop (hash : String → String)
    (vsearch : List StoredRow → List SearchHit) (reason p c doc_id path : String)
    (ci s e : Nat) (content : String) (emb : List Float) (mt sz : Option Int)
    (fh : Option String) (rows : List (Nat × Nat × Nat × String × List Float))
    (query : String) :
    Database.add_document hash (.disabled reason) p c = (.disabled reason, .ok ())
    ∧ Database.add_chunk (.disabled reason) doc_id path ci s e content emb =
        (.disabled reason, .ok ())
    ∧ Database.replace_file_chunks hash (.disabled reason) path mt sz fh rows =
        (.disabled reason, .ok ())
    ∧ Database.search_documents vsearch (.disabled reason) query = .ok []
    ∧ Database.disabled_reason (.disabled reason) = some reason
    ∧ database_new_disabled_reason ≠ ""
    ∧ ∀ err : DbErrorM, err.message ≠ "" := by
  refine ⟨rfl, rfl, rfl, rfl, rfl, by decide, ?_⟩
  intro err
  cases err <;>
    · intro h
      simp only [DbErrorM.message] at h
      have hl := congrArg String.length h
      rw [String.length_append] at hl
      simp at hl
      exact absurd hl.1 (by decide)

/-! ## Claim theorems (embedding and extraction) -/

/-- C8: `embed_texts` either fails or returns exactly one vector per input:
the Noop backend always succeeds with one zero vector of dimension 384 per
text, and `process_file` rejects with an error — leaving the store
untouched — whenever the embedder result length differs from the chunk
count. -/
theorem C8_embed_cardinality :
    (∀ xs : List String,
        noopEmbedTexts xs =
          .ok (xs.map (fun _ => List.replicate EMBEDDING_DIM (0.0 : Float)))
        ∧ (xs.map (fun _ => List.replicate EMBEDDING_DIM (0.0 : Float))).length = xs.length
        ∧ (List.replicate EMBEDDING_DIM (0.0 : Float)).length = 384)
    ∧ ∀ (hash : String → String)
        (embed : List String → Except String (List (List Float)))
        (home : Option String) (fm : Option FileMetaM) (ex : ExtractResultM)
        (db : Database) (path : String) (mtb W O : Nat) (es : List (List Float)),
        embed ((chunk_by_whitespace_tokens ex.text W O).map (fun c => c.text)) = .ok es →
        es.length ≠ (chunk_by_whitespace_tokens ex.text W O).length →
        process_file hash embed home fm (.ok ex) db path mtb W O =
          (.error ("embedder returned " ++ toString es.length ++ " vectors for " ++
            toString (chunk_by_whitespace_tokens ex.text W O).length ++ " chunks"), db) := by
  constructor
  · intro xs
    refine ⟨rfl, ?_, ?_⟩
    · rw [List.length_map]
    · rw [List.length_replicate]
      rfl
  · intro hash embed home fm ex db path mtb W O es hembed hlen
    simp [process_file, hembed, hlen]

/-- Witness for C8 at a concrete input: the Noop embedder on one text, and a
concrete run of `process_file` where the embedder returns zero vectors for
one chunk and the enabled (empty) store stays untouched. -/
theorem C8_embed_cardinality_witness :
    noopEmbedTexts ["hello"] =
      .ok (["hello"].map (fun _ => List.replicate EMBEDDING_DIM (0.0 : Float)))
    ∧ process_file (fun s => s) (fun _ => .ok ([] : List (List Float))) none none
        (.ok { kind := .text, text := "hello", truncated := false })
        (.enabled []) "/x.txt" 10 5 0 =
      (.error "embedder returned 0 vectors for 1 chunks", .enabled []) := by
  constructor
  · exact (C8_embed_cardinality.1 ["hello"]).1
  · exact C8_embed_cardinality.2 (fun s => s) (fun _ => .ok []) none none
      { kind := .text, text := "hello", truncated := false }
      (.enabled []) "/x.txt" 10 5 0 [] rfl (by decide)

/-- C9: plain-text extraction truncates at the byte level before decoding:
the result text is the lenient decode of the first `min(len(b), M)` bytes
and the truncated flag is set exactly when the raw byte stream exceeded the
cap; the lenient decoder itself is a total function, so this path cannot
fail. -/
theorem C9_extract_truncation (lossyDecode : List UInt8 → String)
    (bytes : List UInt8) (M : Nat) :
    extract_plain_text lossyDecode bytes M =
      { kind := .text, text := lossyDecode (bytes.take (min bytes.length M)),
        truncated := decide (M < bytes.length) }
    ∧ (truncate_bytes bytes M).1 = bytes.take (min bytes.length M)
    ∧ ((truncate_bytes bytes M).2 = true ↔ M < bytes.length) := by
  by_cases h : bytes.length ≤ M
  · have h1 : min bytes.length M = bytes.length := Nat.min_eq_left h
    have h2 : ¬ (M < bytes.length) := by omega
    simp [extract_plain_text, truncate_bytes, h, h1, h2, List.take_length]
  · have h1 : min bytes.length M = M := Nat.min_eq_right (by omega)
    have h2 : M < bytes.length := by omega
    simp [extract_plain_text, truncate_bytes, h, h1, h2]

/-! ## Claim theorems (chunker, concrete cases) -/

/-- C3: chunking "a b c d e" with window 3 and overlap 1 yields exactly the
two chunks (0, "a b c", [0,3)) and (1, "c d e", [2,5)); the empty string
yields no chunks for any window and overlap; window 0 yields no chunks for
any text — zero chunks, not an error. -/
theorem C3_chunk_concrete_cases :
    chunk_by_whitespace_tokens "a b c d e" 3 1 =
      [{ index := 0, text := "a b c", start_token := 0, end_token := 3 },
       { index := 1, text := "c d e", start_token := 2, end_token := 5 }]
    ∧ (∀ W O : Nat, chunk_by_whitespace_tokens "" W O = [])
    ∧ (∀ text : String, ∀ O : Nat, chunk_by_whitespace_tokens text 0 O = []) := by
  refine ⟨by decide, fun W O => rfl, fun text O => ?_⟩
  unfold chunk_by_whitespace_tokens chunkTokenList
  cases h : (splitWhitespaceTokens text).isEmpty <;> rfl

/-! ## Chunker window characterization (C2) -/

theorem le_ceil_div_mul (a s : Nat) (hs : 0 < s) : a ≤ ((a + s - 1) / s) * s := by
  generalize hq : (a + s - 1) / s = q
  have hd := Nat.div_add_mod (a + s - 1) s
  have hr := Nat.mod_lt (a + s - 1) hs
  rw [hq] at hd
  rw [Nat.mul_comm]
  generalize hp : s * q = P at hd ⊢
  omega

theorem ceil_div_mul_le (a s : Nat) : ((a + s - 1) / s) * s ≤ a + s - 1 := by
  generalize hq : (a + s - 1) / s = q
  have hd := Nat.div_add_mod (a + s - 1) s
  rw [hq] at hd
  rw [Nat.mul_comm]
  generalize hp : s * q = P at hd ⊢
  omega

theorem ceil_div_step (a s : Nat) (ha : 1 ≤ a) (hs : 0 < s) :
    (a + s - 1) / s = (a - s + s - 1) / s + 1 := by
  have h5 : a + s - 1 = (a - 1) + s := by omega
  rw [h5, Nat.add_div_right _ hs]
  by_cases has : s ≤ a
  · have h6 : a - s + s - 1 = a - 1 := by omega
    rw [h6]
  · have h6 : a - s + s - 1 = s - 1 := by omega
    rw [h6, Nat.div_eq_of_lt (by omega), Nat.div_eq_of_lt (by omega)]

theorem chunkLoop_closed_form (tokens : List String) (W ov : Nat) (hov : ov < W) :
    ∀ fuel start idx, start < tokens.length → tokens.length ≤ start + fuel →
      chunkLoop tokens W ov fuel start idx =
        (List.range ((tokens.length - start - W + (W - ov) - 1) / (W - ov) + 1)).map
          (fun j => emitChunk tokens W (idx + j) (start + j * (W - ov))) := by
  intro fuel
  induction fuel with
  | zero => intro start idx h1 h2; omega
  | succ fuel ih =>
    intro start idx h1 h2
    rw [chunkLoop, if_pos h1]
    by_cases he : min (start + W) tokens.length = tokens.length
    · rw [if_pos he]
      have h3 : tokens.length - start - W = 0 := by omega
      have h4 : (tokens.length - start - W + (W - ov) - 1) / (W - ov) = 0 := by
        rw [h3]
        exact Nat.div_eq_of_lt (by omega)
      rw [h4]
      simp [List.range_succ]
    · rw [if_neg he]
      have hlt : start + W < tokens.length := by omega
      have hnext : min (start + W) tokens.length - ov = start + (W - ov) := by omega
      have hs : 0 < W - ov := by omega
      have hstep := ceil_div_step (tokens.length - start - W) (W - ov) (by omega) hs
      have hnum : tokens.length - (start + (W - ov)) - W =
          tokens.length - start - W - (W - ov) := by omega
      rw [hstep, List.range_succ_eq_map, List.map_cons, List.map_map]
      rw [hnext, ih (start + (W - ov)) (idx + 1) (by omega) (by omega), hnum]
      congr 1
      · simp
      · apply List.map_congr_left
        intro j _
        simp only [Function.comp_apply, Nat.succ_eq_add_one]
        have ha2 : idx + 1 + j = idx + (j + 1) := by omega
        have hb2 : start + (W - ov) + j * (W - ov) = start + (j + 1) * (W - ov) := by
          rw [Nat.succ_mul]
          omega
        rw [ha2, hb2]

theorem chunkTokenList_closed_form (tokens : List String) (W O : Nat)
    (hW : 0 < W) (hne : tokens ≠ []) :
    chunkTokenList tokens W O =
      (List.range
        ((tokens.length - W + (W - min O (W - 1)) - 1) / (W - min O (W - 1)) + 1)).map
        (fun j => emitChunk tokens W j (j * (W - min O (W - 1)))) := by
  have hcond : (tokens.isEmpty || decide (W = 0)) = false := by
    simp [List.isEmpty_iff, hne]
    omega
  have h0 : 0 < tokens.length := List.length_pos.mpr hne
  unfold chunkTokenList
  rw [hcond]
  simp only [Bool.false_eq_true, if_false]
  rw [chunkLoop_closed_form tokens W (min O (W - 1)) (by omega) (tokens.length + 1) 0 0
    h0 (by omega)]
  simp

/-- C2: for a nonempty token sequence of length N and window W > 0 with
effective overlap ov = min(O, W-1) and stride s = W - ov, the chunker emits
windows starting at token 0 advancing by s, chunk j covering
`[j*s, min(j*s + W, N))` with ordinal index j; only the last window's end
reaches N (the loop stops there), and the chunk count is
`ceil((N - ov) / s)` when N > W and 1 otherwise. -/
theorem C2_chunk_window_structure (text : String) (W O : Nat) (hW : 0 < W)
    (hne : splitWhitespaceTokens text ≠ []) :
    (∀ j (hj : j < (chunk_by_whitespace_tokens text W O).length),
        (chunk_by_whitespace_tokens text W O)[j].index = j
        ∧ (chunk_by_whitespace_tokens text W O)[j].start_token =
            j * (W - min O (W - 1))
        ∧ (chunk_by_whitespace_tokens text W O)[j].end_token =
            min (j * (W - min O (W - 1)) + W) (splitWhitespaceTokens text).length)
    ∧ 0 < (chunk_by_whitespace_tokens text W O).length
    ∧ (∀ hpos : 0 < (chunk_by_whitespace_tokens text W O).length,
        ((chunk_by_whitespace_tokens text W O)[
            (chunk_by_whitespace_tokens text W O).length - 1]).end_token =
          (splitWhitespaceTokens text).length)
    ∧ (∀ j (hj : j < (chunk_by_whitespace_tokens text W O).length),
        j + 1 < (chunk_by_whitespace_tokens text W O).length →
        (chunk_by_whitespace_tokens text W O)[j].end_token <
          (splitWhitespaceTokens text).length)
    ∧ (chunk_by_whitespace_tokens text W O).length =
        (if W < (splitWhitespaceTokens text).length then
          ((splitWhitespaceTokens text).length - min O (W - 1) +
            (W - min O (W - 1)) - 1) / (W - min O (W - 1))
        else 1) := by
  have hchunk : chunk_by_whitespace_tokens text W O =
      (List.range
        (((splitWhitespaceTokens text).length - W + (W - min O (W - 1)) - 1) /
          (W - min O (W - 1)) + 1)).map
        (fun j => emitChunk (splitWhitespaceTokens text) W j
          (j * (W - min O (W - 1)))) :=
    chunkTokenList_closed_form (splitWhitespaceTokens text) W O hW hne
  have hs : 0 < W - min O (W - 1) := by omega
  have hlen : (chunk_by_whitespace_tokens text W O).length =
      ((splitWhitespaceTokens text).length - W + (W - min O (W - 1)) - 1) /
        (W - min O (W - 1)) + 1 := by
    rw [hchunk]
    simp
  have hget : ∀ j, (hj : j < (chunk_by_whitespace_tokens text W O).length) →
      (chunk_by_whitespace_tokens text W O)[j] =
        emitChunk (splitWhitespaceTokens text) W j (j * (W - min O (W - 1))) := by
    intro j hj
    rw [List.getElem_of_eq hchunk hj]
    have hj2 : j < (((splitWhitespaceTokens text).length - W +
        (W - min O (W - 1)) - 1) / (W - min O (W - 1)) + 1) := by
      rw [hlen] at hj
      exact hj
    simp
  refine ⟨?_, ?_, ?_, ?_, ?_⟩
  · intro j hj
    rw [hget j hj]
    exact ⟨rfl, rfl, rfl⟩
  · rw [hlen]
    exact Nat.succ_pos _
  · intro hpos
    rw [hget ((chunk_by_whitespace_tokens text W O).length - 1) (by omega)]
    show min (((chunk_by_whitespace_tokens text W O).length - 1) *
        (W - min O (W - 1)) + W) (splitWhitespaceTokens text).length =
      (splitWhitespaceTokens text).length
    rw [hlen]
    have hq1 : (((splitWhitespaceTokens text).length - W + (W - min O (W - 1)) - 1) /
        (W - min O (W - 1)) + 1 - 1) =
        ((splitWhitespaceTokens text).length - W + (W - min O (W - 1)) - 1) /
          (W - min O (W - 1)) := Nat.add_sub_cancel _ 1
    rw [hq1]
    have h1 := le_ceil_div_mul ((splitWhitespaceTokens text).length - W)
      (W - min O (W - 1)) hs
    exact min_eq_right (Nat.sub_le_iff_le_add.mp h1)
  · intro j hj hj1
    rw [hget j hj]
    show min (j * (W - min O (W - 1)) + W) (splitWhitespaceTokens text).length <
      (splitWhitespaceTokens text).length
    rw [hlen] at hj1
    by_cases hWN : W < (splitWhitespaceTokens text).length
    · have hjq : j + 1 ≤
          ((splitWhitespaceTokens text).length - W + (W - min O (W - 1)) - 1) /
            (W - min O (W - 1)) := Nat.lt_succ_iff.mp hj1
      have hmul := Nat.mul_le_mul_right (W - min O (W - 1)) hjq
      have hsucc : (j + 1) * (W - min O (W - 1)) =
          j * (W - min O (W - 1)) + (W - min O (W - 1)) := by
        rw [Nat.succ_mul]
      have h2 := ceil_div_mul_le ((splitWhitespaceTokens text).length - W)
        (W - min O (W - 1))
      have hlt : j * (W - min O (W - 1)) + W < (splitWhitespaceTokens text).length := by
        generalize hQ : (((splitWhitespaceTokens text).length - W +
          (W - min O (W - 1)) - 1) / (W - min O (W - 1))) * (W - min O (W - 1)) = Q
          at hmul h2
        generalize hA : (j + 1) * (W - min O (W - 1)) = A at hmul hsucc
        generalize hB : j * (W - min O (W - 1)) = B at hsucc ⊢
        omega
      rw [min_eq_left (Nat.le_of_lt hlt)]
      exact hlt
    · have hq0 : ((splitWhitespaceTokens text).length - W + (W - min O (W - 1)) - 1) /
          (W - min O (W - 1)) = 0 := Nat.div_eq_of_lt (by omega)
      rw [hq0] at hj1
      exact absurd hj1 (by omega)
  · rw [hlen]
    by_cases hWN : W < (splitWhitespaceTokens text).length
    · rw [if_pos hWN]
      have heq : (splitWhitespaceTokens text).length - min O (W - 1) +
          (W - min O (W - 1)) - 1 =
          ((splitWhitespaceTokens text).length - W + (W - min O (W - 1)) - 1) +
            (W - min O (W - 1)) := by omega
      rw [heq, Nat.add_div_right _ hs]
    · rw [if_neg hWN]
      rw [Nat.div_eq_of_lt (by omega)]

/-- Witness for C2 at the concrete input "a b c d e", W = 3, O = 1: the
hypotheses hold and the chunk count matches the ceiling formula. -/
theorem C2_chunk_window_structure_witness :
    splitWhitespaceTokens "a b c d e" ≠ []
    ∧ (chunk_by_whitespace_tokens "a b c d e" 3 1).length =
        (if 3 < (splitWhitespaceTokens "a b c d e").length then
          ((splitWhitespaceTokens "a b c d e").length - min 1 (3 - 1) +
            (3 - min 1 (3 - 1)) - 1) / (3 - min 1 (3 - 1))
        else 1) :=
  ⟨by decide,
    (C2_chunk_window_structure "a b c d e" 3 1 (by decide) (by decide)).2.2.2.2⟩

/-! ## The per-entry acceptance decision -/

/-- The two traversals' decision chains are literally the same function. -/
theorem previewDecide_eq_indexDecide : @previewDecide = @indexDecide := rfl

/-- The decision chain accepts an entry exactly when the specification's
acceptance predicate holds. -/
theorem previewDecide_isAccept (pol : CompiledFileSystemPolicy)
    (fs : FileSystem) (p : FsPath) :
    (previewDecide pol fs p).isAccept = acceptSpec pol fs p := by
  cases hm : fs.meta p with
  | error e =>
    by_cases hex : pol.matches_exclude p <;>
      simp [previewDecide, acceptSpec, hm, hex, ScanDecision.isAccept]
  | ok m =>
    by_cases hex : pol.matches_exclude p
    · simp [previewDecide, acceptSpec, hm, hex, ScanDecision.isAccept]
    · cases hft : m.ftype with
      | symlink =>
        by_cases hfol : pol.follow_symlinks <;>
          simp [previewDecide, acceptSpec, hm, hex, hft, hfol, ScanDecision.isAccept]
      | dir =>
        cases hch : fs.children p <;>
          simp [previewDecide, acceptSpec, hm, hex, hft, hch, ScanDecision.isAccept]
      | regFile =>
        by_cases hext2 : pol.extension_allowed p
        · by_cases hsz : m.size > pol.max_file_size_bytes <;>
            simp [previewDecide, acceptSpec, hm, hex, hft, hext2, hsz,
              ScanDecision.isAccept] <;> omega
        · simp [previewDecide, acceptSpec, hm, hex, hft, hext2, ScanDecision.isAccept]
      | other =>
        simp [previewDecide, acceptSpec, hm, hex, hft, ScanDecision.isAccept]

/-! ## Extension handling (C10) -/

theorem charOfNat_toNat_valid (n : Nat) (h1 : 65 ≤ n) (h2 : n ≤ 90) :
    (Char.ofNat (n + 32)).toNat = n + 32 := by
  interval_cases n <;> decide

theorem charToLower_idem (c : Char) : c.toLower.toLower = c.toLower := by
  by_cases h : c.toNat ≥ 65 ∧ c.toNat ≤ 90
  · have h1 : c.toLower = Char.ofNat (c.toNat + 32) := by
      simp only [Char.toLower]
      rw [if_pos h]
    have hv := charOfNat_toNat_valid c.toNat h.1 h.2
    rw [h1]
    simp only [Char.toLower, hv]
    rw [if_neg (by omega)]
  · have h1 : c.toLower = c := by
      simp only [Char.toLower]
      rw [if_neg h]
    rw [h1, h1]

theorem asciiLower_idem (s : String) : asciiLower (asciiLower s) = asciiLower s := by
  simp only [asciiLower]
  congr 1
  rw [List.map_map]
  apply List.map_congr_left
  intro c _
  exact charToLower_idem c

/-- C10: a path with no (UTF-8) extension is never allowed by
`extension_allowed` and hence never accepted by either traversal regardless
of the allowlist; for paths with an extension the check lowercases before
comparing, so matching is case-insensitive, and every compiled allowlist
entry is already lowercase. -/
theorem C10_extension_gate :
    (∀ (pol : CompiledFileSystemPolicy) (p : FsPath), p.ext = none →
        pol.extension_allowed p = false)
    ∧ (∀ (pol : CompiledFileSystemPolicy) (fs : FileSystem) (p : FsPath),
        p.ext = none →
        (previewDecide pol fs p).isAccept = false
        ∧ (indexDecide pol fs p).isAccept = false)
    ∧ (∀ (pol : CompiledFileSystemPolicy) (raw raw2 e : String),
        pol.extension_allowed { raw := raw, ext := some e } =
          pol.extension_allowed { raw := raw2, ext := some (asciiLower e) })
    ∧ (∀ (exclude : String → Bool) (cfg : FileSystemSourceConfig),
        ∀ s ∈ (compile_filesystem_policy exclude cfg).allow_extensions,
          asciiLower s = s) := by
  have hnone : ∀ (pol : CompiledFileSystemPolicy) (p : FsPath), p.ext = none →
      pol.extension_allowed p = false := by
    intro pol p hp
    simp [CompiledFileSystemPolicy.extension_allowed, hp]
  refine ⟨hnone, ?_, ?_, ?_⟩
  · intro pol fs p hp
    have hacc : acceptSpec pol fs p = false := by
      cases hm : fs.meta p <;> simp [acceptSpec, hm, hnone pol p hp]
    constructor
    · rw [previewDecide_isAccept, hacc]
    · rw [← previewDecide_eq_indexDecide, previewDecide_isAccept, hacc]
  · intro pol raw raw2 e
    simp [CompiledFileSystemPolicy.extension_allowed, asciiLower_idem]
  · intro exclude cfg s hs
    simp only [compile_filesystem_policy, compileAllowExtensions] at hs
    by_cases hempty : cfg.allow_extensions.isEmpty
    · rw [if_pos hempty] at hs
      have hall : ∀ x ∈ default_allow_extensions, asciiLower x = x := by decide
      exact hall s hs
    · rw [if_neg hempty] at hs
      obtain ⟨hmem, _⟩ := List.mem_filter.mp hs
      obtain ⟨x, _, rfl⟩ := List.mem_map.mp hmem
      exact asciiLower_idem _

/-- Witness for C10 at concrete inputs: a path without extension is not
allowed and not accepted, and a compiled uppercase allowlist entry comes out
lowercase. -/
theorem C10_extension_gate_witness :
    CompiledFileSystemPolicy.extension_allowed witPolicy { raw := "/x", ext := none } = false
    ∧ (previewDecide witPolicy witFs { raw := "/x", ext := none }).isAccept = false
    ∧ asciiLower "txt" = "txt" :=
  ⟨C10_extension_gate.1 witPolicy { raw := "/x", ext := none } rfl,
   (C10_extension_gate.2.1 witPolicy witFs { raw := "/x", ext := none } rfl).1,
   C10_extension_gate.2.2.2 (fun _ => false)
     { exclude_globs := [], allow_extensions := ["TXT"], max_file_size_bytes := 0,
       max_text_bytes := 0, follow_symlinks := false } "txt" (by decide)⟩

/-! ## Traversal trace lemmas -/

theorem previewStep_trace (opts : ScanOptions) (p : FsPath) (d : ScanDecision)
    (st : PreviewState) :
    ((previewStep opts p d st).2).trace = st.trace ++ [(p, d)] := by
  cases d <;> rfl

theorem previewStep_candidates (opts : ScanOptions) (p : FsPath) (d : ScanDecision)
    (st : PreviewState) :
    ((previewStep opts p d st).2).candidates =
      st.candidates + (if d.isAccept then 1 else 0) := by
  cases d <;> rfl

theorem previewLoop_trace (pol : CompiledFileSystemPolicy) (fs : FileSystem)
    (opts : ScanOptions) :
    ∀ fuel stack st, (∀ pd ∈ st.trace, pd.2 = previewDecide pol fs pd.1) →
      ∀ pd ∈ (previewLoop pol fs opts fuel stack st).trace,
        pd.2 = previewDecide pol fs pd.1 := by
  intro fuel
  induction fuel with
  | zero => intro stack st h pd hpd; exact h pd hpd
  | succ fuel ih =>
    intro stack st h pd hpd
    cases stack with
    | nil => exact h pd hpd
    | cons p rest =>
      simp only [previewLoop] at hpd
      refine ih _ _ ?_ pd hpd
      intro pd2 hpd2
      rw [previewStep_trace] at hpd2
      rcases List.mem_append.mp hpd2 with h2 | h2
      · exact h pd2 h2
      · rw [List.mem_singleton] at h2
        rw [h2]

theorem previewLoop_candidates (pol : CompiledFileSystemPolicy) (fs : FileSystem)
    (opts : ScanOptions) :
    ∀ fuel stack st,
      st.candidates = (st.trace.filter (fun pd => pd.2.isAccept)).length →
      (previewLoop pol fs opts fuel stack st).candidates =
        ((previewLoop pol fs opts fuel stack st).trace.filter
          (fun pd => pd.2.isAccept)).length := by
  intro fuel
  induction fuel with
  | zero => intro stack st h; exact h
  | succ fuel ih =>
    intro stack st h
    cases stack with
    | nil => exact h
    | cons p rest =>
      simp only [previewLoop]
      refine ih _ _ ?_
      rw [previewStep_trace, previewStep_candidates, h, List.filter_append,
        List.length_append]
      cases hda : (previewDecide pol fs p).isAccept <;>
        simp [List.filter, hda]

theorem preview_index_trace (pol : CompiledFileSystemPolicy) (fs : FileSystem)
    (opts : ScanOptions) (fuel : Nat) (roots : List FsPath) :
    ∀ pd ∈ (preview_index pol fs opts fuel roots).trace,
      pd.2 = previewDecide pol fs pd.1 := by
  intro pd hpd
  refine previewLoop_trace pol fs opts fuel roots _ ?_ pd hpd
  intro pd2 h2
  exact absurd h2 (List.not_mem_nil pd2)

theorem indexStep_trace (opts : IndexOptions) (runFile : String → Except String Bool)
    (p : FsPath) (d : ScanDecision) (st : IndexState) :
    ((indexStep opts runFile p d st).2).trace = st.trace ++ [(p, d)] := by
  cases d <;> rfl

theorem indexStep_spawnLog (opts : IndexOptions) (runFile : String → Except String Bool)
    (p : FsPath) (d : ScanDecision) (st : IndexState) :
    ((indexStep opts runFile p d st).2).spawnLog =
      st.spawnLog ++ (if d.isAccept then [(p.raw, st.ingested)] else []) := by
  cases d <;> simp [indexStep, ScanDecision.isAccept]

theorem joinOne_ghost (opts : IndexOptions) (st : IndexState) :
    (joinOne opts st).trace = st.trace ∧ (joinOne opts st).spawnLog = st.spawnLog := by
  cases h2 : st.tasks with
  | nil => simp [joinOne, h2]
  | cons t rest =>
    obtain ⟨path, res⟩ := t
    cases res <;> simp [joinOne, h2]

theorem joinOne_sum (opts : IndexOptions) (st : IndexState) :
    (joinOne opts st).ingested + (joinOne opts st).errors +
        (joinOne opts st).tasks.length =
      st.ingested + st.errors + st.tasks.length := by
  cases h2 : st.tasks with
  | nil => simp [joinOne, h2]
  | cons t rest =>
    obtain ⟨path, res⟩ := t
    cases res <;> simp [joinOne, h2] <;> omega

theorem joinOne_tasks_length (opts : IndexOptions) (st : IndexState) :
    (joinOne opts st).tasks.length = st.tasks.length - 1 := by
  cases h2 : st.tasks with
  | nil => simp [joinOne, h2]
  | cons t rest =>
    obtain ⟨path, res⟩ := t
    cases res <;> simp [joinOne, h2]

theorem drainLoop_pres (opts : IndexOptions) :
    ∀ fuel st,
      (drainLoop opts fuel st).trace = st.trace
      ∧ (drainLoop opts fuel st).spawnLog = st.spawnLog
      ∧ ((drainLoop opts fuel st).ingested + (drainLoop opts fuel st).errors +
          (drainLoop opts fuel st).tasks.length =
        st.ingested + st.errors + st.tasks.length) := by
  intro fuel
  induction fuel with
  | zero => intro st; exact ⟨rfl, rfl, rfl⟩
  | succ fuel ih =>
    intro st
    rw [drainLoop]
    split
    · obtain ⟨ht, hl, hsum⟩ := ih (joinOne opts st)
      obtain ⟨hgt, hgl⟩ := joinOne_ghost opts st
      have hgs := joinOne_sum opts st
      exact ⟨ht.trans hgt, hl.trans hgl, by omega⟩
    · exact ⟨rfl, rfl, rfl⟩

theorem joinRemaining_pres (opts : IndexOptions) :
    ∀ fuel st,
      (joinRemaining opts fuel st).trace = st.trace
      ∧ (joinRemaining opts fuel st).spawnLog = st.spawnLog
      ∧ ((joinRemaining opts fuel st).ingested + (joinRemaining opts fuel st).errors +
          (joinRemaining opts fuel st).tasks.length =
        st.ingested + st.errors + st.tasks.length) := by
  intro fuel
  induction fuel with
  | zero => intro st; exact ⟨rfl, rfl, rfl⟩
  | succ fuel ih =>
    intro st
    rw [joinRemaining]
    split
    · exact ⟨rfl, rfl, rfl⟩
    · obtain ⟨ht, hl, hsum⟩ := ih (joinOne opts st)
      obtain ⟨hgt, hgl⟩ := joinOne_ghost opts st
      have hgs := joinOne_sum opts st
      exact ⟨ht.trans hgt, hl.trans hgl, by omega⟩

theorem joinRemaining_tasks_nil (opts : IndexOptions) :
    ∀ fuel st, st.tasks.length ≤ fuel →
      (joinRemaining opts fuel st).tasks = [] := by
  intro fuel
  induction fuel with
  | zero =>
    intro st h
    rw [joinRemaining]
    exact List.length_eq_zero.mp (by omega)
  | succ fuel ih =>
    intro st h
    rw [joinRemaining]
    split
    · next hemp => exact List.isEmpty_iff.mp hemp
    · next hemp =>
      refine ih _ ?_
      have hne : st.tasks ≠ [] := by
        intro hcon
        exact hemp (by simp [hcon])
      have := joinOne_tasks_length opts st
      have hpos : 0 < st.tasks.length := List.length_pos.mpr hne
      omega

theorem indexStep_inv (opts : IndexOptions) (runFile : String → Except String Bool)
    (p : FsPath) (d : ScanDecision) (st : IndexState) (m : Nat)
    (h1 : ∀ e ∈ st.spawnLog, e.2 < m)
    (h2 : st.ingested + st.errors + st.tasks.length = st.spawnLog.length)
    (hing : st.ingested < m) :
    (∀ e ∈ ((indexStep opts runFile p d st).2).spawnLog, e.2 < m)
    ∧ (((indexStep opts runFile p d st).2).ingested +
        ((indexStep opts runFile p d st).2).errors +
        ((indexStep opts runFile p d st).2).tasks.length =
      ((indexStep opts runFile p d st).2).spawnLog.length) := by
  constructor
  · intro e he
    rw [indexStep_spawnLog] at he
    cases hda : d.isAccept
    · rw [hda] at he
      simp at he
      exact h1 e he
    · rw [hda] at he
      simp at he
      rcases he with h3 | h3
      · exact h1 e h3
      · rw [h3]
        exact hing
  · cases d <;> (simp [indexStep]; omega)

theorem indexLoop_inv (pol : CompiledFileSystemPolicy) (fs : FileSystem)
    (opts : IndexOptions) (runFile : String → Except String Bool) (m : Nat)
    (hm : opts.max_files = some m) :
    ∀ fuel stack st,
      (∀ e ∈ st.spawnLog, e.2 < m) →
      st.ingested + st.errors + st.tasks.length = st.spawnLog.length →
      ((∀ e ∈ (indexLoop pol fs opts runFile fuel stack st).spawnLog, e.2 < m)
       ∧ ((indexLoop pol fs opts runFile fuel stack st).ingested +
           (indexLoop pol fs opts runFile fuel stack st).errors +
           (indexLoop pol fs opts runFile fuel stack st).tasks.length =
         (indexLoop pol fs opts runFile fuel stack st).spawnLog.length)) := by
  intro fuel
  induction fuel with
  | zero => intro stack st h1 h2; exact ⟨h1, h2⟩
  | succ fuel ih =>
    intro stack st h1 h2
    cases stack with
    | nil => exact ⟨h1, h2⟩
    | cons p rest =>
      simp only [indexLoop, hm]
      by_cases hg : st.ingested ≥ m
      · rw [if_pos (by simpa using hg)]
        exact ⟨h1, h2⟩
      · rw [if_neg (by simpa using hg)]
        have hing : st.ingested < m := by omega
        obtain ⟨hs1, hs2⟩ :=
          indexStep_inv opts runFile p (indexDecide pol fs p) st m h1 h2 hing
        cases hd : indexDecide pol fs p with
        | excluded => rw [hd] at hs1 hs2; exact ih _ _ hs1 hs2
        | metaError e => rw [hd] at hs1 hs2; exact ih _ _ hs1 hs2
        | symlinkSkip => rw [hd] at hs1 hs2; exact ih _ _ hs1 hs2
        | descendOk cs => rw [hd] at hs1 hs2; exact ih _ _ hs1 hs2
        | descendErr e => rw [hd] at hs1 hs2; exact ih _ _ hs1 hs2
        | notRegular => rw [hd] at hs1 hs2; exact ih _ _ hs1 hs2
        | extNotAllowed => rw [hd] at hs1 hs2; exact ih _ _ hs1 hs2
        | tooLarge sz => rw [hd] at hs1 hs2; exact ih _ _ hs1 hs2
        | accept mm =>
          rw [hd] at hs1 hs2
          obtain ⟨hdt, hdl, hdsum⟩ := drainLoop_pres opts
            (((indexStep opts runFile p (.accept mm) st).2).tasks.length)
            ((indexStep opts runFile p (.accept mm) st).2)
          have hA : ∀ e ∈ (drainLoop opts
              (((indexStep opts runFile p (.accept mm) st).2).tasks.length)
              ((indexStep opts runFile p (.accept mm) st).2)).spawnLog, e.2 < m := by
            intro e he
            rw [hdl] at he
            exact hs1 e he
          have hB : (drainLoop opts
              (((indexStep opts runFile p (.accept mm) st).2).tasks.length)
              ((indexStep opts runFile p (.accept mm) st).2)).ingested +
              (drainLoop opts
                (((indexStep opts runFile p (.accept mm) st).2).tasks.length)
                ((indexStep opts runFile p (.accept mm) st).2)).errors +
              (drainLoop opts
                (((indexStep opts runFile p (.accept mm) st).2).tasks.length)
                ((indexStep opts runFile p (.accept mm) st).2)).tasks.length =
              (drainLoop opts
                (((indexStep opts runFile p (.accept mm) st).2).tasks.length)
                ((indexStep opts runFile p (.accept mm) st).2)).spawnLog.length := by
            rw [hdl]
            omega
          exact ih _ _ hA hB

theorem indexLoop_trace (pol : CompiledFileSystemPolicy) (fs : FileSystem)
    (opts : IndexOptions) (runFile : String → Except String Bool) :
    ∀ fuel stack st, (∀ pd ∈ st.trace, pd.2 = indexDecide pol fs pd.1) →
      ∀ pd ∈ (indexLoop pol fs opts runFile fuel stack st).trace,
        pd.2 = indexDecide pol fs pd.1 := by
  intro fuel
  induction fuel with
  | zero => intro stack st h pd hpd; exact h pd hpd
  | succ fuel ih =>
    intro stack st h pd hpd
    cases stack with
    | nil => exact h pd hpd
    | cons p rest =>
      simp only [indexLoop] at hpd
      by_cases hg : (match opts.max_files with
          | some mm => decide (st.ingested ≥ mm)
          | none => false) = true
      · rw [if_pos hg] at hpd
        exact h pd hpd
      · rw [if_neg hg] at hpd
        cases hd : indexDecide pol fs p with
        | accept mm =>
          rw [hd] at hpd
          refine ih _ _ ?_ pd hpd
          intro pd2 hpd2
          rw [(drainLoop_pres opts _ _).1, indexStep_trace] at hpd2
          rcases List.mem_append.mp hpd2 with h2 | h2
          · exact h pd2 h2
          · rw [List.mem_singleton] at h2
            rw [h2, hd]
        | excluded =>
          rw [hd] at hpd
          refine ih _ _ ?_ pd hpd
          intro pd2 hpd2
          rw [indexStep_trace] at hpd2
          rcases List.mem_append.mp hpd2 with h2 | h2
          · exact h pd2 h2
          · rw [List.mem_singleton] at h2
            rw [h2, hd]
        | metaError e =>
          rw [hd] at hpd
          refine ih _ _ ?_ pd hpd
          intro pd2 hpd2
          rw [indexStep_trace] at hpd2
          rcases List.mem_append.mp hpd2 with h2 | h2
          · exact h pd2 h2
          · rw [List.mem_singleton] at h2
            rw [h2, hd]
        | symlinkSkip =>
          rw [hd] at hpd
          refine ih _ _ ?_ pd hpd
          intro pd2 hpd2
          rw [indexStep_trace] at hpd2
          rcases List.mem_append.mp hpd2 with h2 | h2
          · exact h pd2 h2
          · rw [List.mem_singleton] at h2
            rw [h2, hd]
        | descendOk cs =>
          rw [hd] at hpd
          refine ih _ _ ?_ pd hpd
          intro pd2 hpd2
          rw [indexStep_trace] at hpd2
          rcases List.mem_append.mp hpd2 with h2 | h2
          · exact h pd2 h2
          · rw [List.mem_singleton] at h2
            rw [h2, hd]
        | descendErr e =>
          rw [hd] at hpd
          refine ih _ _ ?_ pd hpd
          intro pd2 hpd2
          rw [indexStep_trace] at hpd2
          rcases List.mem_append.mp hpd2 with h2 | h2
          · exact h pd2 h2
          · rw [List.mem_singleton] at h2
            rw [h2, hd]
        | notRegular =>
          rw [hd] at hpd
          refine ih _ _ ?_ pd hpd
          intro pd2 hpd2
          rw [indexStep_trace] at hpd2
          rcases List.mem_append.mp hpd2 with h2 | h2
          · exact h pd2 h2
          · rw [List.mem_singleton] at h2
            rw [h2, hd]
        | extNotAllowed =>
          rw [hd] at hpd
          refine ih _ _ ?_ pd hpd
          intro pd2 hpd2
          rw [indexStep_trace] at hpd2
          rcases List.mem_append.mp hpd2 with h2 | h2
          · exact h pd2 h2
          · rw [List.mem_singleton] at h2
            rw [h2, hd]
        | tooLarge sz =>
          rw [hd] at hpd
          refine ih _ _ ?_ pd hpd
          intro pd2 hpd2
          rw [indexStep_trace] at hpd2
          rcases List.mem_append.mp hpd2 with h2 | h2
          · exact h pd2 h2
          · rw [List.mem_singleton] at h2
            rw [h2, hd]

theorem index_roots_trace (pol : CompiledFileSystemPolicy) (fs : FileSystem)
    (opts : IndexOptions) (runFile : String → Except String Bool)
    (fuel : Nat) (roots : List FsPath) :
    ∀ pd ∈ (index_roots pol fs opts runFile fuel roots).trace,
      pd.2 = indexDecide pol fs pd.1 := by
  intro pd hpd
  have hpres := (joinRemaining_pres opts
    ((indexLoop pol fs opts runFile fuel roots initIndexState).tasks.length)
    (indexLoop pol fs opts runFile fuel roots initIndexState)).1
  rw [show (index_roots pol fs opts runFile fuel roots).trace =
      (indexLoop pol fs opts runFile fuel roots initIndexState).trace from hpres] at hpd
  refine indexLoop_trace pol fs opts runFile fuel roots initIndexState ?_ pd hpd
  intro pd2 h2
  exact absurd h2 (List.not_mem_nil pd2)

/-! ## Claim theorems (scanning and indexing) -/

/-- C1: an entry reached during a scan is accepted (a preview candidate,
respectively a spawned ingestion task) iff it is a regular file, not
excluded, with allowlisted extension, size at most the cap, and not a
symlink unless symlinks are followed; the preview scan and the live
ingestion traversal run the same per-entry decision chain. -/
theorem C1_scan_acceptance (pol : CompiledFileSystemPolicy) (fs : FileSystem)
    (sopts : ScanOptions) (iopts : IndexOptions)
    (runFile : String → Except String Bool) (fuel1 fuel2 : Nat)
    (roots1 roots2 : List FsPath) :
    @previewDecide = @indexDecide
    ∧ (∀ pd ∈ (preview_index pol fs sopts fuel1 roots1).trace,
        pd.2.isAccept = acceptSpec pol fs pd.1)
    ∧ ((preview_index pol fs sopts fuel1 roots1).candidates =
        ((preview_index pol fs sopts fuel1 roots1).trace.filter
          (fun pd => pd.2.isAccept)).length)
    ∧ (∀ pd ∈ (index_roots pol fs iopts runFile fuel2 roots2).trace,
        pd.2.isAccept = acceptSpec pol fs pd.1) := by
  refine ⟨previewDecide_eq_indexDecide, ?_, ?_, ?_⟩
  · intro pd hpd
    rw [preview_index_trace pol fs sopts fuel1 roots1 pd hpd]
    exact previewDecide_isAccept pol fs pd.1
  · exact previewLoop_candidates pol fs sopts fuel1 roots1 _ (by rfl)
  · intro pd hpd
    rw [index_roots_trace pol fs iopts runFile fuel2 roots2 pd hpd]
    rw [← previewDecide_eq_indexDecide]
    exact previewDecide_isAccept pol fs pd.1

/-- Witness for C1: in the concrete three-file scan, the entry "/a.txt" is
reached and accepted, and the acceptance predicate holds for it. -/
theorem C1_scan_acceptance_witness :
    (witEntryA, ScanDecision.accept witMetaFile)
      ∈ (preview_index witPolicy witFs witScanOpts 10 witRoots).trace
    ∧ acceptSpec witPolicy witFs witEntryA = true := by
  constructor
  · decide
  · have h2 := (C1_scan_acceptance witPolicy witFs witScanOpts witIndexOpts
      witRunFile 10 10 witRoots witRoots).2.1
      (witEntryA, ScanDecision.accept witMetaFile) (by decide)
    rw [← h2]
    rfl

/-- C7 counterexample: with `max_files = 1`, concurrency 2 and three
acceptable files, the indexer spawns three per-file tasks, so it does not
stop acquiring permits once the count of accepted candidates reaches
`max_files` (the code's guard watches completed ingestions, which are only
observed when draining). -/
theorem C7_counterexample :
    (index_roots witPolicy witFs witIndexOpts witRunFile 10 witRoots).spawnLog.length = 3
    ∧ ¬((index_roots witPolicy witFs witIndexOpts witRunFile 10
        witRoots).spawnLog.length ≤ 1) := by
  constructor <;> decide

/-- C7 (amended): with `max_files = m`, every task is spawned only while the
count of successfully completed ingestions observed so far is below `m`
(the spawn log records that count at spawn time), and every spawned task is
joined and counted in the final summary: `ingested + errors` equals the
number of spawned tasks and no task is left pending. -/
theorem C7_max_files_guard (pol : CompiledFileSystemPolicy) (fs : FileSystem)
    (opts : IndexOptions) (runFile : String → Except String Bool)
    (fuel : Nat) (roots : List FsPath) (m : Nat)
    (hm : opts.max_files = some m) :
    (∀ e ∈ (index_roots pol fs opts runFile fuel roots).spawnLog, e.2 < m)
    ∧ ((index_roots pol fs opts runFile fuel roots).ingested +
        (index_roots pol fs opts runFile fuel roots).errors =
      (index_roots pol fs opts runFile fuel roots).spawnLog.length)
    ∧ (index_roots pol fs opts runFile fuel roots).tasks = [] := by
  have hjr : index_roots pol fs opts runFile fuel roots =
      joinRemaining opts
        ((indexLoop pol fs opts runFile fuel roots initIndexState).tasks.length)
        (indexLoop pol fs opts runFile fuel roots initIndexState) := rfl
  have hloop := indexLoop_inv pol fs opts runFile m hm fuel roots initIndexState
    (by intro e he; exact absurd he (List.not_mem_nil e)) (by rfl)
  obtain ⟨ht, hl, hsum⟩ := joinRemaining_pres opts
    ((indexLoop pol fs opts runFile fuel roots initIndexState).tasks.length)
    (indexLoop pol fs opts runFile fuel roots initIndexState)
  have hnil := joinRemaining_tasks_nil opts
    ((indexLoop pol fs opts runFile fuel roots initIndexState).tasks.length)
    (indexLoop pol fs opts runFile fuel roots initIndexState) (Nat.le_refl _)
  rw [hjr]
  refine ⟨?_, ?_, hnil⟩
  · intro e he
    rw [hl] at he
    exact hloop.1 e he
  · have hlen := congrArg List.length hl
    have htl := congrArg List.length hnil
    simp only [List.length_nil] at htl
    omega

/-- Witness for C7 (amended) on the concrete three-file run: the final
counts cover all three spawned tasks and the first spawn was recorded with
zero completed ingestions, below `max_files = 1`. -/
theorem C7_max_files_guard_witness :
    ((index_roots witPolicy witFs witIndexOpts witRunFile 10 witRoots).ingested +
        (index_roots witPolicy witFs witIndexOpts witRunFile 10 witRoots).errors =
      (index_roots witPolicy witFs witIndexOpts witRunFile 10
        witRoots).spawnLog.length)
    ∧ ("/a.txt", 0) ∈ (index_roots witPolicy witFs witIndexOpts witRunFile 10
        witRoots).spawnLog
    ∧ 0 < 1 := by
  refine ⟨(C7_max_files_guard witPolicy witFs witIndexOpts witRunFile 10 witRoots 1
    rfl).2.1, by decide, ?_⟩
  exact (C7_max_files_guard witPolicy witFs witIndexOpts witRunFile 10 witRoots 1
    rfl).1 ("/a.txt", 0) (by decide)

end Silo
